import Mathlib

/-
Verification of the DiffRhythm API task subsystem.

The definitions below are a shallow embedding of the Python sources:
  - `api/storage.py`  (StorageManager: metadata encoding, create/update/read/sweep)
  - `api/tasks.py`    (background task runner, status projection)
  - `api/main.py`     (endpoint validation and effects for /generate, /edit, /download)
  - `api/inference.py` (model-configuration derivation and lazy (re)construction)

Python strings are modelled as `List Char`; the line-oriented metadata file is a
single character list; a task store is a list of directory entries keyed by name.
Timestamps are opaque strings; `datetime.fromisoformat` (standard library, not
repository code) is a parameter `parseIso : Str -> Option Int` of the sweep, with
`none` standing for the exception it raises on malformed input.
-/

namespace DiffRhythmApi

/-- Characters of a Python string. -/
abbrev Str := List Char

/-- Coerce a Lean string literal to the character-list model. -/
def strOf (s : String) : Str := s.data

/-- The whitespace set of Python `str.strip()` (common subset). -/
def isWS (c : Char) : Bool :=
  decide (c = ' ') || decide (c = '\t') || decide (c = '\n') || decide (c = '\r')

/-- Python `str.strip()`: drop whitespace from both ends. -/
def strip (s : Str) : Str :=
  ((s.dropWhile isWS).reverse.dropWhile isWS).reverse

/-- Python `str.split(sep)` for a one-character separator (all occurrences). -/
def splitOnChar (c : Char) : Str → List Str
  | [] => [[]]
  | a :: rest =>
    if a = c then [] :: splitOnChar c rest
    else
      match splitOnChar c rest with
      | [] => [[a]]
      | h :: t => (a :: h) :: t

/-- Python `str.split(sep, 1)`: split at the first occurrence of `c`;
`none` when `c` does not occur (Python's `sep in line` test). -/
def splitFirst (c : Char) : Str → Option (Str × Str)
  | [] => none
  | a :: rest =>
    if a = c then some ([], rest)
    else (splitFirst c rest).map (fun p => (a :: p.1, p.2))

/-- Whether character `c` occurs in `s`. -/
def hasChar (c : Char) (s : Str) : Bool := s.any (fun a => decide (a = c))

/-- A Python dict with insertion order: an association list where assignment
to an existing key keeps its position and assignment to a new key appends. -/
abbrev Dict := List (Str × Str)

def dictHasKey (m : Dict) (k : Str) : Bool := m.any (fun p => decide (p.1 = k))

/-- Python `d[k] = v` on an insertion-ordered dict. -/
def dictInsert (m : Dict) (k v : Str) : Dict :=
  if dictHasKey m k then m.map (fun p => if p.1 = k then (k, v) else p)
  else m ++ [(k, v)]

/-- Python `d.get(k)`. -/
def dictGet (m : Dict) (k : Str) : Option Str :=
  (m.find? (fun p => decide (p.1 = k))).map (fun p => p.2)

def dictKeys (m : Dict) : List Str := m.map (fun p => p.1)

/-- One parsing step of `StorageManager` metadata reading (`storage.py` lines
179-183 and 216-220): `if ":" in line: key, value = line.split(":", 1);
metadata[key.strip()] = value.strip()`. -/
def parseLineInto (m : Dict) (line : Str) : Dict :=
  match splitFirst ':' line with
  | none => m
  | some (k, v) => dictInsert m (strip k) (strip v)

def parseMetadataLines (lines : List Str) : Dict :=
  lines.foldl parseLineInto []

/-- Parse a whole metadata file: iterate its lines, accumulating a dict. -/
def parseMetadata (content : Str) : Dict :=
  parseMetadataLines (splitOnChar '\n' content)

/-- One written line: `f.write(f"{key}: {value}\n")`. -/
def serializeLine (kv : Str × Str) : Str :=
  kv.1 ++ ':' :: ' ' :: (kv.2 ++ ['\n'])

/-- Serialize a metadata dict (`storage.py` lines 60-62 and 193-195). -/
def serializeMetadata : Dict → Str
  | [] => []
  | kv :: m => serializeLine kv ++ serializeMetadata m

/-- A Python value passed as an `update_task_status` keyword argument. -/
inductive PyValue where
  | int (n : Int)
  | str (s : Str)

/-- Python `str(value)` as applied in `update_task_status` (line 190). -/
def pyStr : PyValue → Str
  | .int n => strOf (toString n)
  | .str s => s

/-- An entry of the storage base directory: a task directory (or stray file)
together with the content of its `metadata.txt`, when that file exists. -/
structure DirEntry where
  name : Str
  isDir : Bool
  metadata : Option Str
deriving DecidableEq

/-- The storage root: the entries `base_path.iterdir()` would yield. -/
abbrev Store := List DirEntry

def findDirEntry (st : Store) (id : Str) : Option DirEntry :=
  st.find? (fun e => decide (e.name = id))

/-- Content of `{base}/{id}/metadata.txt`, or `none` when the directory or the
file does not exist. -/
def storeMeta (st : Store) (id : Str) : Option Str :=
  match findDirEntry st id with
  | none => none
  | some e => e.metadata

/-- Write `{base}/{id}/metadata.txt` (creating the directory when absent,
`mkdir(exist_ok=True)` style). -/
def storeSet (st : Store) (id : Str) (content : Str) : Store :=
  if st.any (fun e => decide (e.name = id)) then
    st.map (fun e => if e.name = id then { e with metadata := some content } else e)
  else st ++ [{ name := id, isDir := true, metadata := some content }]

/-- The initial record written by `create_task_directory` (`storage.py` 53-62):
insertion order `task_id`, `created_at`, `status`. -/
def initialMetadata (id now : Str) : Str :=
  serializeMetadata
    [(strOf "task_id", id), (strOf "created_at", now), (strOf "status", strOf "created")]

/-- `StorageManager.create_task_directory` (storage effects on the metadata
store; the `input/` and `output/` subdirectories carry no record state). -/
def create_task_directory (st : Store) (id now : Str) : Store :=
  storeSet st id (initialMetadata id now)

/-- The kwargs merge loop of `update_task_status` (`storage.py` 189-190):
`for key, value in kwargs.items(): metadata[key] = str(value)`. -/
def applyKwargs (m : Dict) (kwargs : List (Str × PyValue)) : Dict :=
  kwargs.foldl (fun m kv => dictInsert m kv.1 (pyStr kv.2)) m

/-- The in-memory dict after an update: overwrite `status` and `updated_at`,
then merge the string-coerced kwargs in order (`storage.py` 185-190). -/
def updatedDict (m : Dict) (status now : Str)
    (kwargs : List (Str × PyValue)) : Dict :=
  applyKwargs (dictInsert (dictInsert m (strOf "status") status)
    (strOf "updated_at") now) kwargs

/-- The read-modify-write body of `update_task_status` on one file's content:
parse, update the dict, re-serialize (`storage.py` 177-195). -/
def updateContent (content : Str) (status now : Str)
    (kwargs : List (Str × PyValue)) : Str :=
  serializeMetadata (updatedDict (parseMetadata content) status now kwargs)

/-- `StorageManager.update_task_status` (`storage.py` 161-197): silently a
no-op when the metadata file does not exist. -/
def update_task_status (st : Store) (id : Str) (status now : Str)
    (kwargs : List (Str × PyValue)) : Store :=
  match storeMeta st id with
  | none => st
  | some c => storeSet st id (updateContent c status now kwargs)

/-- `StorageManager.get_task_metadata` (`storage.py` 199-222). -/
def get_task_metadata (st : Store) (id : Str) : Option Dict :=
  (storeMeta st id).map parseMetadata

/-- The first line of the file starting with `created_at:`
(`storage.py` 149-150). -/
def findCreatedAtLine (content : Str) : Option Str :=
  (splitOnChar '\n' content).find? (fun l => (strOf "created_at:").isPrefixOf l)

/-- `line.split(":", 1)[1].strip()` applied to that line (`storage.py` 151). -/
def sweepCreatedAt (content : Str) : Option Str :=
  match findCreatedAtLine content with
  | none => none
  | some l => (splitFirst ':' l).map (fun p => strip p.2)

/-- Whether one pass of `cleanup_old_tasks` removes this entry
(`storage.py` 138-159): non-directories, entries without `metadata.txt`,
records without a `created_at:` line, and records whose timestamp makes
`fromisoformat` raise are all left in place. -/
def sweepDeletes (parseIso : Str → Option Int) (cutoff : Int) (e : DirEntry) : Bool :=
  e.isDir &&
    match e.metadata with
    | none => false
    | some c =>
      match sweepCreatedAt c with
      | none => false
      | some s =>
        match parseIso s with
        | none => false
        | some t => decide (t < cutoff)

/-- `StorageManager.cleanup_old_tasks` (`storage.py` 126-159): the surviving
contents of the base directory, with `cutoff_time = now - max_age`. -/
def cleanup_old_tasks (parseIso : Str → Option Int) (now maxAge : Int)
    (st : Store) : Store :=
  st.filter (fun e => !sweepDeletes parseIso (now - maxAge) e)

/-- Claim-side predicate: the entry is a task directory whose metadata record
has a `created_at` field that parses and is strictly older than
`now - max_age`. -/
def entryExpired (parseIso : Str → Option Int) (now maxAge : Int)
    (e : DirEntry) : Prop :=
  e.isDir = true ∧
    ∃ c s t, e.metadata = some c ∧ sweepCreatedAt c = some s ∧
      parseIso s = some t ∧ t < now - maxAge

/-! ### tasks.py -/

/-- The outcome of the one call into the Inference Adapter: the returned
output path, or the message of the exception it raised. -/
abbrev AdapterOutcome := Except Str Str

/-- `generate_music_task` (`tasks.py` 37-89).  The timestamps `t0 t10 tEnd
tDone` are the successive `datetime.now()` results: the two `processing`
updates, the terminal update's `updated_at`, and its `completed_at` kwarg. -/
def generate_music_task (adapter : AdapterOutcome) (t0 t10 tEnd tDone : Str)
    (st : Store) (id : Str) : Store :=
  let s1 := update_task_status st id (strOf "processing") t0
    [(strOf "progress", .int 0)]
  let s2 := update_task_status s1 id (strOf "processing") t10
    [(strOf "progress", .int 10)]
  match adapter with
  | .ok outputPath =>
    update_task_status s2 id (strOf "completed") tEnd
      [(strOf "progress", .int 100), (strOf "output_path", .str outputPath),
       (strOf "completed_at", .str tDone)]
  | .error e =>
    update_task_status s2 id (strOf "failed") tEnd
      [(strOf "error", .str (strOf "Error in generation task: " ++ e)),
       (strOf "completed_at", .str tDone)]

/-- `edit_music_task` (`tasks.py` 91-144): identical control flow, with the
edit-task error prefix. -/
def edit_music_task (adapter : AdapterOutcome) (t0 t10 tEnd tDone : Str)
    (st : Store) (id : Str) : Store :=
  let s1 := update_task_status st id (strOf "processing") t0
    [(strOf "progress", .int 0)]
  let s2 := update_task_status s1 id (strOf "processing") t10
    [(strOf "progress", .int 10)]
  match adapter with
  | .ok outputPath =>
    update_task_status s2 id (strOf "completed") tEnd
      [(strOf "progress", .int 100), (strOf "output_path", .str outputPath),
       (strOf "completed_at", .str tDone)]
  | .error e =>
    update_task_status s2 id (strOf "failed") tEnd
      [(strOf "error", .str (strOf "Error in edit task: " ++ e)),
       (strOf "completed_at", .str tDone)]

/-- The response model built by `get_task_status` (`tasks.py` 147-171). -/
structure TaskStatusResponse where
  task_id : Str
  status : Str
  progress : Option Int
  message : Option Str
  output_path : Option Str
  created_at : Option Str
  completed_at : Option Str
  error : Option Str
deriving DecidableEq

def allDigits (ds : Str) : Bool :=
  ds.all (fun c => decide ('0' ≤ c) && decide (c ≤ '9'))

def digitsVal (ds : Str) : Int :=
  ds.foldl (fun a c => a * 10 + Int.ofNat (c.toNat - '0'.toNat)) 0

/-- Python `int(s)` on a string: strip whitespace, optional sign, digits;
`none` models the `ValueError` it raises otherwise. -/
def pyInt (s : Str) : Option Int :=
  match strip s with
  | [] => none
  | c :: rest =>
    if c = '-' then
      if rest ≠ [] ∧ allDigits rest = true then some (-(digitsVal rest)) else none
    else if c = '+' then
      if rest ≠ [] ∧ allDigits rest = true then some (digitsVal rest) else none
    else
      if allDigits (c :: rest) = true then some (digitsVal (c :: rest)) else none

/-- The progress projection of `get_task_status` (`tasks.py` 165):
`int(metadata.get("progress", 0)) if "progress" in metadata else None`;
`Except.error ()` models the `ValueError` that `int` raises on a
non-numeric stored value. -/
def progressField (md : Dict) : Except Unit (Option Int) :=
  match dictGet md (strOf "progress") with
  | none => .ok none
  | some p =>
    match pyInt p with
    | none => .error ()
    | some n => .ok (some n)

/-- `get_task_status` (`tasks.py` 147-171): `.ok none` is the task-not-found
case; `.error ()` propagates the progress-parse `ValueError`. -/
def get_task_status (st : Store) (id : Str) :
    Except Unit (Option TaskStatusResponse) :=
  match get_task_metadata st id with
  | none => .ok none
  | some md =>
    match progressField md with
    | .error _ => .error ()
    | .ok prog =>
      .ok (some {
        task_id := id
        status := (dictGet md (strOf "status")).getD (strOf "unknown")
        progress := prog
        message := dictGet md (strOf "message")
        output_path := dictGet md (strOf "output_path")
        created_at := dictGet md (strOf "created_at")
        completed_at := dictGet md (strOf "completed_at")
        error := dictGet md (strOf "error") })

/-! ### main.py endpoints -/

/-- Python truthiness of an optional form string: `None` and `""` are falsy. -/
def pyTruthyStrOpt : Option Str → Bool
  | none => false
  | some s => !s.isEmpty

/-- The JSON response model of a successful submit. -/
structure GenerateResponse where
  taskId : Str
  status : Str
  message : Str
deriving DecidableEq

/-- An `HTTPException`: status code and detail text. -/
abbrev HttpError := Nat × Str

/-- A `/generate` multipart request after framework decoding: the lyrics file
is required by the signature; `hasRefAudio` is whether a `ref_audio` file was
sent. -/
structure GenerateRequest where
  hasRefAudio : Bool
  refPrompt : Option Str
  audioLength : Int
  chunked : Bool
  batchInferNum : Int

/-- An `/edit` multipart request: `ref_song` and `edit_segments` are required
by the endpoint signature (framework-enforced), so they appear as plain
fields. -/
structure EditRequest where
  hasRefAudio : Bool
  refPrompt : Option Str
  editSegments : Str
  audioLength : Int
  chunked : Bool
  batchInferNum : Int

/-- `generate_music` endpoint (`main.py` 76-156): validation order is
neither-provided, both-provided, audio-length range; only then is the task id
used and the directory created.  `newId` is the fresh `uuid4` and `now` the
creation timestamp. -/
def generate_music (newId now : Str) (r : GenerateRequest) (st : Store) :
    Except HttpError GenerateResponse × Store :=
  if !r.hasRefAudio && !pyTruthyStrOpt r.refPrompt then
    (.error (400, strOf "Either ref_audio or ref_prompt must be provided"), st)
  else if r.hasRefAudio && pyTruthyStrOpt r.refPrompt then
    (.error (400, strOf "Only one of ref_audio or ref_prompt should be provided"), st)
  else if r.audioLength < 95 ∨ 285 < r.audioLength then
    (.error (400, strOf "Audio length must be 95 or between 96-285 seconds"), st)
  else
    (.ok { taskId := newId, status := strOf "queued",
           message := strOf "Music generation task queued successfully" },
     create_task_directory st newId now)

/-- `edit_music` endpoint (`main.py` 159-238): only the two style-reference
checks guard the body; there is no audio-length validation before the task
directory is created and the task queued. -/
def edit_music (newId now : Str) (r : EditRequest) (st : Store) :
    Except HttpError GenerateResponse × Store :=
  if !r.hasRefAudio && !pyTruthyStrOpt r.refPrompt then
    (.error (400, strOf "Either ref_audio or ref_prompt must be provided"), st)
  else if r.hasRefAudio && pyTruthyStrOpt r.refPrompt then
    (.error (400, strOf "Only one of ref_audio or ref_prompt should be provided"), st)
  else
    (.ok { taskId := newId, status := strOf "queued",
           message := strOf "Music editing task queued successfully" },
     create_task_directory st newId now)

/-- Result of `GET /download/{task_id}`. -/
inductive DownloadOutcome where
  | fileResp (path : Str) (filename : Str)
  | httpError (code : Nat) (detail : Str)
deriving DecidableEq

/-- `download_result` endpoint (`main.py` 256-288).  `fileExists` is the
`Path.exists` oracle for the recorded output path; the 500 branch is the
generic exception handler (reached e.g. when `get_task_status` raises). -/
def download_result (st : Store) (id : Str) (fileExists : Str → Bool) :
    DownloadOutcome :=
  match get_task_status st id with
  | .error _ => .httpError 500 (strOf "Internal server error")
  | .ok none => .httpError 404 (strOf "Task not found")
  | .ok (some s) =>
    if s.status ≠ strOf "completed" then
      .httpError 400
        (strOf "Task is not completed yet. Current status: " ++ s.status)
    else if !pyTruthyStrOpt s.output_path then
      .httpError 404 (strOf "Output file not found")
    else if !fileExists (s.output_path.getD []) then
      .httpError 404 (strOf "Output file not found")
    else
      .fileResp (s.output_path.getD []) (id ++ strOf ".wav")

/-! ### inference.py -/

/-- The mutable configuration state of `DiffRhythmInference`: whether `cfm`
is loaded, and the `max_frames` it was loaded with. -/
structure ModelState where
  cfmLoaded : Bool
  maxFrames : Option Int
deriving DecidableEq

/-- The `ValueError` message of `_initialize_models`. -/
def invalidLengthMsg (audioLength : Int) : Str :=
  strOf "Invalid audio_length: " ++ strOf (toString audioLength) ++
    strOf ". Supported values are exactly 95 or any value between 96 and 285 (inclusive)."

/-- The `max_frames` derivation of `_initialize_models`
(`inference.py` 51-60). -/
def deriveMaxFrames (audioLength : Int) : Except Str Int :=
  if audioLength = 95 then .ok 2048
  else if 95 < audioLength ∧ audioLength ≤ 285 then .ok 6144
  else .error (invalidLengthMsg audioLength)

/-- `_initialize_models` (`inference.py` 44-74): derive `max_frames`, then
reload the model exactly when none is loaded or the derived value differs;
the returned flag records whether `prepare_model` was invoked. -/
def initialize_models (ms : ModelState) (audioLength : Int) :
    Except Str (ModelState × Bool) :=
  match deriveMaxFrames audioLength with
  | .error e => .error e
  | .ok mf =>
    if ms.cfmLoaded = false ∨ ms.maxFrames ≠ some mf then
      .ok ({ cfmLoaded := true, maxFrames := some mf }, true)
    else
      .ok (ms, false)

/-! ### Well-formedness of records -/

/-- A value as the store re-reads it: no surrounding whitespace, no embedded
newline.  Colons are allowed — the parser splits each line at its first
colon, which ends the key. -/
def cleanVal (v : Str) : Prop := strip v = v ∧ hasChar '\n' v = false

/-- A key as the parser produces it: stripped, colon-free, newline-free. -/
def wfKey (k : Str) : Prop :=
  strip k = k ∧ hasChar ':' k = false ∧ hasChar '\n' k = false

/-- A dict that the line encoding represents faithfully. -/
def wfDict (m : Dict) : Prop :=
  (∀ kv ∈ m, wfKey kv.1 ∧ cleanVal kv.2) ∧ (dictKeys m).Nodup

instance (v : Str) : Decidable (cleanVal v) := by
  unfold cleanVal
  infer_instance

instance (k : Str) : Decidable (wfKey k) := by
  unfold wfKey
  infer_instance

instance (m : Dict) : Decidable (wfDict m) := by
  unfold wfDict
  infer_instance

/-- The first character, if any, is not whitespace. -/
def noLead : Str → Bool
  | [] => true
  | a :: _ => !isWS a

/-- The body of a serialized line, without its terminating newline. -/
def lineBody (kv : Str × Str) : Str := kv.1 ++ ':' :: ' ' :: kv.2

/-- Reachability condition for status reads: a stored `progress` field, when
present, is numeric (true of every record this system writes: progress is
only ever 0, 10 or 100). -/
def progressParses (md : Dict) : Bool :=
  match dictGet md (strOf "progress") with
  | none => true
  | some p => (pyInt p).isSome

/-! ### Lemmas: characters, strip, split -/

theorem hasChar_nil (c : Char) : hasChar c [] = false := rfl

theorem hasChar_cons (c a : Char) (s : Str) :
    hasChar c (a :: s) = (decide (a = c) || hasChar c s) := by
  simp [hasChar]

theorem hasChar_append (c : Char) (s t : Str) :
    hasChar c (s ++ t) = (hasChar c s || hasChar c t) := by
  simp [hasChar]

theorem hasChar_eq_false_iff (c : Char) (s : Str) :
    hasChar c s = false ↔ c ∉ s := by
  simp [hasChar]
  constructor
  · intro h hc
    exact (h c hc) rfl
  · intro h a ha hac
    exact h (hac ▸ ha)

theorem noLead_dropWhile (l : Str) : noLead (l.dropWhile isWS) = true := by
  induction l with
  | nil => rfl
  | cons a l ih =>
    by_cases h : isWS a = true
    · rw [List.dropWhile_cons_of_pos h]; exact ih
    · rw [List.dropWhile_cons_of_neg h]
      simp [noLead, Bool.not_eq_true] at h ⊢
      exact h

theorem dropWhile_eq_self_of_noLead (l : Str) (h : noLead l = true) :
    l.dropWhile isWS = l := by
  cases l with
  | nil => rfl
  | cons a l =>
    simp only [noLead, Bool.not_eq_true'] at h
    rw [List.dropWhile_cons_of_neg (by simp [h])]

theorem strip_eq_self_of_noLead (s : Str)
    (h1 : noLead s = true) (h2 : noLead s.reverse = true) : strip s = s := by
  unfold strip
  rw [dropWhile_eq_self_of_noLead s h1, dropWhile_eq_self_of_noLead _ h2,
    List.reverse_reverse]

theorem strip_sublist (s : Str) : (strip s).Sublist s := by
  unfold strip
  have h1 : ((s.dropWhile isWS).reverse.dropWhile isWS).Sublist
      (s.dropWhile isWS).reverse := List.dropWhile_sublist _
  have h2 : (((s.dropWhile isWS).reverse.dropWhile isWS).reverse).Sublist
      (s.dropWhile isWS) := by
    have := h1.reverse
    simpa using this
  exact h2.trans (List.dropWhile_sublist _)

theorem mem_of_mem_strip {a : Char} {s : Str} (h : a ∈ strip s) : a ∈ s :=
  (strip_sublist s).subset h

theorem hasChar_strip_false {c : Char} {s : Str} (h : hasChar c s = false) :
    hasChar c (strip s) = false := by
  rw [hasChar_eq_false_iff] at h ⊢
  exact fun hc => h (mem_of_mem_strip hc)

theorem noLead_strip (s : Str) : noLead (strip s) = true := by
  unfold strip
  set u := s.dropWhile isWS with hu
  have hnu : noLead u = true := noLead_dropWhile s
  set w := u.reverse.dropWhile isWS with hw
  rcases hsuf : w.reverse with _ | ⟨a, t⟩
  · rfl
  · -- head of w.reverse is the head of u, because w is a suffix of u.reverse
    obtain ⟨pre, hpre⟩ :=
      (List.dropWhile_suffix isWS : u.reverse.dropWhile isWS <:+ u.reverse)
    rw [← hw] at hpre
    have : u = w.reverse ++ pre.reverse := by
      have := congrArg List.reverse hpre
      simpa [List.reverse_append] using this.symm
    rw [this, hsuf] at hnu
    simpa [noLead, hsuf] using hnu

theorem noLead_reverse_strip (s : Str) : noLead (strip s).reverse = true := by
  unfold strip
  rw [List.reverse_reverse]
  exact noLead_dropWhile _

theorem strip_idem (s : Str) : strip (strip s) = strip s :=
  strip_eq_self_of_noLead _ (noLead_strip s) (noLead_reverse_strip s)

theorem strip_cons_of_ws {a : Char} (s : Str) (h : isWS a = true) :
    strip (a :: s) = strip s := by
  unfold strip
  rw [List.dropWhile_cons_of_pos h]

theorem noLead_of_strip_eq_self {s : Str} (h : strip s = s) :
    noLead s = true ∧ noLead s.reverse = true := by
  constructor
  · rw [← h]; exact noLead_strip s
  · rw [← h]; exact noLead_reverse_strip s

theorem noLead_append_left {p e : Str} (h : p ≠ []) :
    noLead (p ++ e) = noLead p := by
  cases p with
  | nil => exact absurd rfl h
  | cons a t => rfl

theorem strip_append_clean {p e : Str} (hp : noLead p = true) (hpne : p ≠ [])
    (he : strip e = e) (hene : e ≠ []) : strip (p ++ e) = p ++ e := by
  apply strip_eq_self_of_noLead
  · rw [noLead_append_left hpne]; exact hp
  · rw [List.reverse_append, noLead_append_left (by simpa using hene)]
    exact (noLead_of_strip_eq_self he).2

theorem splitOnChar_ne_nil (c : Char) (s : Str) : splitOnChar c s ≠ [] := by
  induction s with
  | nil => simp [splitOnChar]
  | cons a rest ih =>
    unfold splitOnChar
    by_cases h : a = c
    · simp [h]
    · simp only [if_neg h]
      rcases hr : splitOnChar c rest with _ | ⟨h', t'⟩
      · simp
      · simp

theorem mem_splitOnChar_not (c : Char) (s : Str) :
    ∀ l ∈ splitOnChar c s, hasChar c l = false := by
  induction s with
  | nil =>
    intro l hl
    have : l = [] := by simpa [splitOnChar] using hl
    subst this
    rfl
  | cons a rest ih =>
    intro l hl
    unfold splitOnChar at hl
    by_cases h : a = c
    · rw [if_pos h] at hl
      rcases List.mem_cons.mp hl with hl | hl
      · subst hl; rfl
      · exact ih l hl
    · rw [if_neg h] at hl
      rcases hr : splitOnChar c rest with _ | ⟨h', t'⟩
      · exact absurd hr (splitOnChar_ne_nil c rest)
      · rw [hr] at hl
        rcases List.mem_cons.mp hl with hl | hl
        · subst hl
          rw [hasChar_cons]
          have := ih h' (by rw [hr]; exact List.mem_cons_self _ _)
          simp [h, this]
        · exact ih l (by rw [hr]; exact List.mem_cons_of_mem _ hl)

theorem splitOnChar_cons_self (c : Char) (s : Str) :
    splitOnChar c (c :: s) = [] :: splitOnChar c s := by
  simp only [splitOnChar]
  simp

theorem splitOnChar_append_no {c : Char} {xs : Str} (ys : Str)
    (hx : hasChar c xs = false) {h : Str} {t : List Str}
    (hys : splitOnChar c ys = h :: t) :
    splitOnChar c (xs ++ ys) = (xs ++ h) :: t := by
  induction xs with
  | nil => simpa using hys
  | cons a xs ih =>
    rw [hasChar_cons] at hx
    have ha : a ≠ c := by
      intro hac
      simp [hac] at hx
    have hx' : hasChar c xs = false := by
      rcases Bool.or_eq_false_iff.mp hx with ⟨_, h2⟩
      exact h2
    have := ih hx'
    rw [List.cons_append]
    unfold splitOnChar
    rw [if_neg ha, this]
    rfl

theorem splitFirst_of_not_has {c : Char} {s : Str} (h : hasChar c s = false) :
    splitFirst c s = none := by
  induction s with
  | nil => rfl
  | cons a rest ih =>
    rw [hasChar_cons] at h
    rcases Bool.or_eq_false_iff.mp h with ⟨h1, h2⟩
    unfold splitFirst
    rw [if_neg (by simpa using h1), ih h2]
    rfl

theorem splitFirst_append {c : Char} {k : Str} (v : Str)
    (h : hasChar c k = false) : splitFirst c (k ++ c :: v) = some (k, v) := by
  induction k with
  | nil => simp [splitFirst]
  | cons a k ih =>
    rw [hasChar_cons] at h
    rcases Bool.or_eq_false_iff.mp h with ⟨h1, h2⟩
    rw [List.cons_append]
    unfold splitFirst
    rw [if_neg (by simpa using h1), ih h2]
    rfl

theorem splitFirst_eq_some {c : Char} {s a b : Str}
    (h : splitFirst c s = some (a, b)) :
    hasChar c a = false ∧ s = a ++ c :: b := by
  induction s generalizing a b with
  | nil => simp [splitFirst] at h
  | cons x rest ih =>
    unfold splitFirst at h
    by_cases hx : x = c
    · rw [if_pos hx] at h
      simp at h
      obtain ⟨ha, hb⟩ := h
      subst ha; subst hb; subst hx
      exact ⟨rfl, rfl⟩
    · rw [if_neg hx] at h
      rcases hr : splitFirst c rest with _ | ⟨p, q⟩
      · rw [hr] at h; simp at h
      · rw [hr] at h
        simp at h
        obtain ⟨ha, hb⟩ := h
        obtain ⟨hp, hs⟩ := ih hr
        subst hb
        constructor
        · rw [← ha, hasChar_cons]
          simp [hx, hp]
        · rw [← ha, List.cons_append, ← hs]

/-! ### Lemmas: insertion-ordered dicts -/

theorem dictGet_insert_self (m : Dict) (k v : Str) :
    dictGet (dictInsert m k v) k = some v := by
  unfold dictInsert
  by_cases h : dictHasKey m k
  · rw [if_pos h]
    unfold dictHasKey at h
    induction m with
    | nil => simp at h
    | cons p m ih =>
      simp only [List.map_cons]
      by_cases hp : p.1 = k
      · unfold dictGet
        rw [if_pos hp, List.find?_cons_of_pos _ (by simp)]
        rfl
      · rw [if_neg hp]
        unfold dictGet
        rw [List.find?_cons_of_neg _ (by simp [hp])]
        apply ih
        simpa [List.any_cons, hp] using h
  · rw [if_neg h]
    unfold dictGet
    rw [List.find?_append]
    have hnone : m.find? (fun p => decide (p.1 = k)) = none := by
      rw [List.find?_eq_none]
      intro x hx
      simp only [dictHasKey] at h
      intro hxk
      have : m.any (fun p => decide (p.1 = k)) = true :=
        List.any_eq_true.mpr ⟨x, hx, hxk⟩
      exact absurd this h
    rw [hnone]
    simp [List.find?]

theorem dictGet_map_replace (m : Dict) (k v k' : Str) (h : k' ≠ k) :
    dictGet (m.map (fun p => if p.1 = k then (k, v) else p)) k' = dictGet m k' := by
  induction m with
  | nil => rfl
  | cons p m ih =>
    simp only [List.map_cons]
    by_cases hp : p.1 = k
    · rw [if_pos hp]
      unfold dictGet
      rw [List.find?_cons_of_neg _ (by simp [Ne.symm h]),
        List.find?_cons_of_neg _ (by simp [hp, Ne.symm h])]
      exact ih
    · rw [if_neg hp]
      unfold dictGet
      by_cases hp' : p.1 = k'
      · rw [List.find?_cons_of_pos _ (by simp [hp']),
          List.find?_cons_of_pos _ (by simp [hp'])]
      · rw [List.find?_cons_of_neg _ (by simp [hp']),
          List.find?_cons_of_neg _ (by simp [hp'])]
        exact ih

theorem dictGet_insert_ne (m : Dict) (k v k' : Str) (h : k' ≠ k) :
    dictGet (dictInsert m k v) k' = dictGet m k' := by
  unfold dictInsert
  by_cases hk : dictHasKey m k
  · rw [if_pos hk]
    exact dictGet_map_replace m k v k' h
  · rw [if_neg hk]
    unfold dictGet
    rw [List.find?_append]
    have : List.find? (fun p => decide (p.1 = k')) [(k, v)] = none := by
      simp [List.find?, Ne.symm h]
    rw [this, Option.or_none]

theorem dictInsert_of_not_has {m : Dict} {k : Str} (v : Str)
    (h : dictHasKey m k = false) : dictInsert m k v = m ++ [(k, v)] := by
  unfold dictInsert
  rw [if_neg (by simp [h])]

theorem dictGet_of_not_has {m : Dict} {k : Str} (h : dictHasKey m k = false) :
    dictGet m k = none := by
  unfold dictGet
  have : m.find? (fun p => decide (p.1 = k)) = none := by
    rw [List.find?_eq_none]
    intro x hx hxk
    have : m.any (fun p => decide (p.1 = k)) = true :=
      List.any_eq_true.mpr ⟨x, hx, hxk⟩
    rw [dictHasKey] at h
    rw [this] at h
    exact absurd h (by simp)
  rw [this]
  rfl

theorem dictKeys_map_replace (m : Dict) (k v : Str) :
    dictKeys (m.map (fun p => if p.1 = k then (k, v) else p)) = dictKeys m := by
  induction m with
  | nil => rfl
  | cons p m ih =>
    simp only [List.map_cons, dictKeys] at ih ⊢
    by_cases hp : p.1 = k
    · rw [if_pos hp, ih, hp]
    · rw [if_neg hp, ih]

theorem dictKeys_insert_nodup {m : Dict} {k : Str} (v : Str)
    (h : (dictKeys m).Nodup) : (dictKeys (dictInsert m k v)).Nodup := by
  unfold dictInsert
  by_cases hk : dictHasKey m k
  · rw [if_pos hk, dictKeys_map_replace]
    exact h
  · rw [if_neg hk]
    unfold dictKeys
    rw [List.map_append]
    rw [List.nodup_append]
    refine ⟨h, by simp, ?_⟩
    intro x hx hx'
    simp only [List.map_cons, List.map_nil, List.mem_singleton] at hx'
    subst hx'
    obtain ⟨p, hp, hp1⟩ := List.mem_map.mp hx
    have : m.any (fun p => decide (p.1 = x)) = true :=
      List.any_eq_true.mpr ⟨p, hp, by simp [hp1]⟩
    rw [dictHasKey] at hk
    rw [this] at hk
    exact hk (by simp)

theorem dictGet_cons (k' v : Str) (m : Dict) (k : Str) :
    dictGet ((k', v) :: m) k = if k' = k then some v else dictGet m k := by
  unfold dictGet
  by_cases h : k' = k
  · rw [List.find?_cons_of_pos _ (by simp [h]), if_pos h]
    rfl
  · rw [List.find?_cons_of_neg _ (by simp [h]), if_neg h]

theorem dictGet_nil (k : Str) : dictGet [] k = none := rfl

theorem mem_dictInsert {p : Str × Str} {m : Dict} {k v : Str}
    (h : p ∈ dictInsert m k v) : p ∈ m ∨ p = (k, v) := by
  unfold dictInsert at h
  by_cases hk : dictHasKey m k
  · rw [if_pos hk] at h
    obtain ⟨q, hq, hfq⟩ := List.mem_map.mp h
    by_cases hq1 : q.1 = k
    · right; rw [← hfq, if_pos hq1]
    · left; rw [← hfq, if_neg hq1]; exact hq
  · rw [if_neg hk] at h
    rcases List.mem_append.mp h with h | h
    · left; exact h
    · right; simpa using h

theorem wfDict_insert {m : Dict} {k v : Str} (hm : wfDict m) (hk : wfKey k)
    (hv : cleanVal v) : wfDict (dictInsert m k v) := by
  constructor
  · intro kv hkv
    rcases mem_dictInsert hkv with h | h
    · exact hm.1 kv h
    · subst h; exact ⟨hk, hv⟩
  · exact dictKeys_insert_nodup v hm.2

/-! ### Lemmas: parsing and serialization round-trip -/

theorem isWS_space : isWS ' ' = true := rfl

theorem wfDict_nil : wfDict [] := ⟨by simp, by simp [dictKeys]⟩

theorem dictHasKey_append (a b : Dict) (k : Str) :
    dictHasKey (a ++ b) k = (dictHasKey a k || dictHasKey b k) := by
  simp [dictHasKey]

theorem parseLineInto_wf {m : Dict} {line : Str} (hm : wfDict m)
    (hl : hasChar '\n' line = false) : wfDict (parseLineInto m line) := by
  unfold parseLineInto
  rcases hsf : splitFirst ':' line with _ | ⟨k, v⟩
  · exact hm
  · obtain ⟨hk, hline⟩ := splitFirst_eq_some hsf
    subst hline
    rw [hasChar_append, hasChar_cons] at hl
    rcases Bool.or_eq_false_iff.mp hl with ⟨hk', hv'⟩
    rcases Bool.or_eq_false_iff.mp hv' with ⟨_, hv''⟩
    exact wfDict_insert hm
      ⟨strip_idem k, hasChar_strip_false hk, hasChar_strip_false hk'⟩
      ⟨strip_idem v, hasChar_strip_false hv''⟩

theorem foldl_parseLineInto_wf {m : Dict} {lines : List Str} (hm : wfDict m)
    (hl : ∀ l ∈ lines, hasChar '\n' l = false) :
    wfDict (lines.foldl parseLineInto m) := by
  induction lines generalizing m with
  | nil => exact hm
  | cons l lines ih =>
    rw [List.foldl_cons]
    exact ih (parseLineInto_wf hm (hl l (List.mem_cons_self _ _)))
      (fun l' hl' => hl l' (List.mem_cons_of_mem _ hl'))

theorem wf_parseMetadata (content : Str) : wfDict (parseMetadata content) :=
  foldl_parseLineInto_wf wfDict_nil (mem_splitOnChar_not '\n' content)

theorem serializeLine_shift (kv : Str × Str) (rest : Str) :
    serializeLine kv ++ rest = lineBody kv ++ '\n' :: rest := by
  simp [serializeLine, lineBody]

theorem hasChar_lineBody {kv : Str × Str}
    (h1 : hasChar '\n' kv.1 = false) (h2 : hasChar '\n' kv.2 = false) :
    hasChar '\n' (lineBody kv) = false := by
  unfold lineBody
  rw [hasChar_append, hasChar_cons, hasChar_cons]
  simp [h1, h2]

theorem splitOnChar_serialize {m : Dict}
    (h : ∀ kv ∈ m, hasChar '\n' kv.1 = false ∧ hasChar '\n' kv.2 = false) :
    splitOnChar '\n' (serializeMetadata m) = m.map lineBody ++ [[]] := by
  induction m with
  | nil => rfl
  | cons kv m ih =>
    have hkv := h kv (List.mem_cons_self _ _)
    have ihm := ih (fun kv' h' => h kv' (List.mem_cons_of_mem _ h'))
    show splitOnChar '\n' (serializeLine kv ++ serializeMetadata m) = _
    rw [serializeLine_shift]
    have hsplit : splitOnChar '\n' ('\n' :: serializeMetadata m) =
        [] :: (m.map lineBody ++ [[]]) := by
      rw [splitOnChar_cons_self, ihm]
    rw [splitOnChar_append_no ('\n' :: serializeMetadata m)
      (hasChar_lineBody hkv.1 hkv.2) hsplit]
    simp

theorem parseLineInto_lineBody {acc : Dict} {k v : Str}
    (hwk : wfKey k) (hwv : cleanVal v) (hacc : dictHasKey acc k = false) :
    parseLineInto acc (lineBody (k, v)) = acc ++ [(k, v)] := by
  unfold parseLineInto lineBody
  have : splitFirst ':' (k ++ ':' :: ' ' :: v) = some (k, ' ' :: v) :=
    splitFirst_append (' ' :: v) hwk.2.1
  rw [this]
  show dictInsert acc (strip k) (strip (' ' :: v)) = acc ++ [(k, v)]
  rw [strip_cons_of_ws v isWS_space, hwk.1, hwv.1]
  exact dictInsert_of_not_has v hacc

theorem foldl_parse_serialized {m : Dict} :
    ∀ acc : Dict, (∀ kv ∈ m, wfKey kv.1 ∧ cleanVal kv.2) →
    (dictKeys m).Nodup → (∀ k ∈ dictKeys m, dictHasKey acc k = false) →
    (m.map lineBody).foldl parseLineInto acc = acc ++ m := by
  induction m with
  | nil => intro acc _ _ _; simp
  | cons kv m ih =>
    intro acc hwf hnd hdisj
    obtain ⟨k, v⟩ := kv
    rw [List.map_cons, List.foldl_cons]
    have hwkv := hwf (k, v) (List.mem_cons_self _ _)
    have hk_acc : dictHasKey acc k = false :=
      hdisj k (by simp [dictKeys])
    rw [parseLineInto_lineBody hwkv.1 hwkv.2 hk_acc]
    have hnd' : (dictKeys m).Nodup := by
      have : dictKeys ((k, v) :: m) = k :: dictKeys m := by simp [dictKeys]
      rw [this] at hnd
      exact (List.nodup_cons.mp hnd).2
    have hknotin : k ∉ dictKeys m := by
      have : dictKeys ((k, v) :: m) = k :: dictKeys m := by simp [dictKeys]
      rw [this] at hnd
      exact (List.nodup_cons.mp hnd).1
    rw [ih (acc ++ [(k, v)])
      (fun kv' h' => hwf kv' (List.mem_cons_of_mem _ h')) hnd' ?_]
    · simp
    · intro k' hk'
      rw [dictHasKey_append]
      have h1 : dictHasKey acc k' = false :=
        hdisj k' (by simp [dictKeys] at hk' ⊢; right; exact hk')
      have h2 : dictHasKey [(k, v)] k' = false := by
        have hne : k' ≠ k := by
          intro he
          subst he
          exact hknotin hk'
        simp only [dictHasKey, List.any_cons, List.any_nil]
        simp only [Bool.or_false, decide_eq_false_iff_not]
        exact fun he => hne (Eq.symm he)
      rw [h1, h2]
      rfl

theorem parseLineInto_nil (m : Dict) : parseLineInto m [] = m := rfl

theorem parse_serialize {m : Dict} (h : wfDict m) :
    parseMetadata (serializeMetadata m) = m := by
  unfold parseMetadata parseMetadataLines
  rw [splitOnChar_serialize (fun kv hkv =>
    ⟨(h.1 kv hkv).1.2.2, (h.1 kv hkv).2.2⟩)]
  rw [List.foldl_append]
  rw [foldl_parse_serialized [] h.1 h.2 (fun k _ => rfl)]
  simp [parseLineInto_nil]

/-! ### Lemmas: updates and the store -/

theorem wf_applyKwargs {m : Dict} {kwargs : List (Str × PyValue)}
    (hm : wfDict m) (hk : ∀ kv ∈ kwargs, wfKey kv.1 ∧ cleanVal (pyStr kv.2)) :
    wfDict (applyKwargs m kwargs) := by
  induction kwargs generalizing m with
  | nil => exact hm
  | cons kv kwargs ih =>
    unfold applyKwargs
    rw [List.foldl_cons]
    have hkv := hk kv (List.mem_cons_self _ _)
    exact ih (wfDict_insert hm hkv.1 hkv.2)
      (fun kv' h' => hk kv' (List.mem_cons_of_mem _ h'))

theorem wfKey_status : wfKey (strOf "status") := by
  refine ⟨by decide, by decide, by decide⟩

theorem wfKey_updated_at : wfKey (strOf "updated_at") := by
  refine ⟨by decide, by decide, by decide⟩

theorem wf_updatedDict {m : Dict} {status now : Str}
    {kwargs : List (Str × PyValue)} (hm : wfDict m) (hs : cleanVal status)
    (hn : cleanVal now)
    (hk : ∀ kv ∈ kwargs, wfKey kv.1 ∧ cleanVal (pyStr kv.2)) :
    wfDict (updatedDict m status now kwargs) :=
  wf_applyKwargs
    (wfDict_insert (wfDict_insert hm wfKey_status hs) wfKey_updated_at hn) hk

/-- Parsing the rewritten metadata file recovers exactly the in-memory dict
the writer serialized, provided the inserted values are clean. -/
theorem parse_updateContent {content : Str} {status now : Str}
    {kwargs : List (Str × PyValue)} (hs : cleanVal status) (hn : cleanVal now)
    (hk : ∀ kv ∈ kwargs, wfKey kv.1 ∧ cleanVal (pyStr kv.2)) :
    parseMetadata (updateContent content status now kwargs) =
      updatedDict (parseMetadata content) status now kwargs :=
  parse_serialize (wf_updatedDict (wf_parseMetadata content) hs hn hk)

theorem storeMeta_set_self (st : Store) (id c : Str) :
    storeMeta (storeSet st id c) id = some c := by
  unfold storeSet storeMeta findDirEntry
  by_cases h : st.any (fun e => decide (e.name = id))
  · rw [if_pos h]
    induction st with
    | nil => simp at h
    | cons e st ih =>
      simp only [List.map_cons]
      by_cases he : e.name = id
      · rw [List.find?_cons_of_pos _ (by simp [if_pos he, he])]
        rw [if_pos he]
      · rw [if_neg he, List.find?_cons_of_neg _ (by simp [he])]
        apply ih
        simpa [List.any_cons, he] using h
  · rw [if_neg h]
    rw [List.find?_append]
    have hnone : st.find? (fun e => decide (e.name = id)) = none := by
      rw [List.find?_eq_none]
      intro x hx hxk
      exact absurd (List.any_eq_true.mpr ⟨x, hx, hxk⟩) h
    rw [hnone]
    simp [List.find?]

theorem update_task_status_of_meta {st : Store} {id content : Str}
    (h : storeMeta st id = some content) (status now : Str)
    (kwargs : List (Str × PyValue)) :
    update_task_status st id status now kwargs =
      storeSet st id (updateContent content status now kwargs) := by
  unfold update_task_status
  rw [h]

theorem storeMeta_update_self {st : Store} {id content : Str}
    (h : storeMeta st id = some content) (status now : Str)
    (kwargs : List (Str × PyValue)) :
    storeMeta (update_task_status st id status now kwargs) id =
      some (updateContent content status now kwargs) := by
  rw [update_task_status_of_meta h, storeMeta_set_self]

theorem get_task_status_of_meta {st : Store} {id content : Str}
    (h : storeMeta st id = some content) :
    get_task_status st id =
      match progressField (parseMetadata content) with
      | .error _ => .error ()
      | .ok prog =>
        .ok (some {
          task_id := id
          status := (dictGet (parseMetadata content) (strOf "status")).getD
            (strOf "unknown")
          progress := prog
          message := dictGet (parseMetadata content) (strOf "message")
          output_path := dictGet (parseMetadata content) (strOf "output_path")
          created_at := dictGet (parseMetadata content) (strOf "created_at")
          completed_at := dictGet (parseMetadata content) (strOf "completed_at")
          error := dictGet (parseMetadata content) (strOf "error") }) := by
  unfold get_task_status get_task_metadata
  rw [h]
  rfl

/-! ### Claim C9 -/

/-- C9: for every task id with no existing metadata record,
`update_task_status` fails silently — it returns without raising, creates no
record, and leaves the store entirely unchanged. -/
theorem c9_update_missing_record_noop (st : Store) (id status now : Str)
    (kwargs : List (Str × PyValue)) (h : storeMeta st id = none) :
    update_task_status st id status now kwargs = st := by
  unfold update_task_status
  rw [h]

theorem c9_update_missing_record_noop_witness :
    storeMeta [⟨strOf "other", true, none⟩] (strOf "t1") = none ∧
      update_task_status [⟨strOf "other", true, none⟩] (strOf "t1")
        (strOf "processing") (strOf "T")
        [(strOf "progress", PyValue.int 0)] = [⟨strOf "other", true, none⟩] :=
  ⟨by decide,
   c9_update_missing_record_noop [⟨strOf "other", true, none⟩] (strOf "t1")
     (strOf "processing") (strOf "T") [(strOf "progress", PyValue.int 0)]
     (by decide)⟩

/-! ### Claim C1 -/

theorem sweepDeletes_eq_true_iff (parseIso : Str → Option Int) (cutoff : Int)
    (e : DirEntry) :
    sweepDeletes parseIso cutoff e = true ↔
      e.isDir = true ∧ ∃ c s t, e.metadata = some c ∧
        sweepCreatedAt c = some s ∧ parseIso s = some t ∧ t < cutoff := by
  unfold sweepDeletes
  rcases hm : e.metadata with _ | c
  · simp [hm]
  · rcases hs : sweepCreatedAt c with _ | s
    · simp [hm, hs]
    · rcases ht : parseIso s with _ | t
      · simp [hm, hs, ht]
      · simp [hm, hs, ht]

/-- C1: for every collection of directory entries, every `max_age` and every
behavior of `fromisoformat`, the sweep removes exactly the task directories
whose parsed `created_at` is strictly older than `now - max_age`; everything
else — non-directories, directories without metadata, records with a missing
or unparseable `created_at` — survives unchanged and in order. -/
theorem c1_sweep_deletes_exactly_expired (parseIso : Str → Option Int)
    (now maxAge : Int) (st : Store) :
    (∀ e, e ∈ cleanup_old_tasks parseIso now maxAge st ↔
      e ∈ st ∧ ¬ entryExpired parseIso now maxAge e) ∧
    (cleanup_old_tasks parseIso now maxAge st).Sublist st := by
  constructor
  · intro e
    unfold cleanup_old_tasks
    rw [List.mem_filter]
    constructor
    · rintro ⟨hin, hkeep⟩
      refine ⟨hin, fun hexp => ?_⟩
      have : sweepDeletes parseIso (now - maxAge) e = true :=
        (sweepDeletes_eq_true_iff parseIso (now - maxAge) e).mpr hexp
      rw [this] at hkeep
      exact absurd hkeep (by simp)
    · rintro ⟨hin, hnexp⟩
      refine ⟨hin, ?_⟩
      rcases hsd : sweepDeletes parseIso (now - maxAge) e with _ | _
      · rfl
      · exact absurd
          ((sweepDeletes_eq_true_iff parseIso (now - maxAge) e).mp hsd) hnexp
  · exact List.filter_sublist _

/-! ### Claim C6 -/

/-- C6: `_initialize_models` maps audio length exactly 95 to `max_frames`
2048, every length in 96–285 to 6144, and raises `ValueError` for every
other length; the model handle is (re)constructed exactly when no model is
loaded yet or the derived `max_frames` differs from the loaded one. -/
theorem c6_initialize_models_config (a : Int) (ms : ModelState) :
    (a = 95 → deriveMaxFrames a = Except.ok 2048) ∧
    (96 ≤ a → a ≤ 285 → deriveMaxFrames a = Except.ok 6144) ∧
    ((a < 95 ∨ 285 < a) → deriveMaxFrames a = Except.error (invalidLengthMsg a) ∧
      initialize_models ms a = Except.error (invalidLengthMsg a)) ∧
    (∀ mf, deriveMaxFrames a = Except.ok mf →
      ((ms.cfmLoaded = false ∨ ms.maxFrames ≠ some mf) →
        initialize_models ms a = Except.ok (⟨true, some mf⟩, true)) ∧
      (ms.cfmLoaded = true → ms.maxFrames = some mf →
        initialize_models ms a = Except.ok (ms, false))) := by
  refine ⟨?_, ?_, ?_, ?_⟩
  · intro h
    subst h
    rfl
  · intro h1 h2
    unfold deriveMaxFrames
    rw [if_neg (by omega), if_pos (show 95 < a ∧ a ≤ 285 by omega)]
  · intro h
    have hd : deriveMaxFrames a = Except.error (invalidLengthMsg a) := by
      unfold deriveMaxFrames
      rw [if_neg (by omega), if_neg (by omega)]
    refine ⟨hd, ?_⟩
    unfold initialize_models
    rw [hd]
  · intro mf hmf
    constructor
    · intro hcond
      unfold initialize_models
      rw [hmf]
      exact if_pos hcond
    · intro h1 h2
      unfold initialize_models
      rw [hmf]
      exact if_neg (by simp [h1, h2])

theorem c6_initialize_models_config_witness :
    deriveMaxFrames 95 = Except.ok 2048 ∧
    deriveMaxFrames 200 = Except.ok 6144 ∧
    deriveMaxFrames 94 = Except.error (invalidLengthMsg 94) ∧
    initialize_models ⟨false, none⟩ 95 = Except.ok (⟨true, some 2048⟩, true) ∧
    initialize_models ⟨true, some 6144⟩ 95 = Except.ok (⟨true, some 2048⟩, true) ∧
    initialize_models ⟨true, some 2048⟩ 95 = Except.ok (⟨true, some 2048⟩, false) :=
  ⟨(c6_initialize_models_config 95 ⟨false, none⟩).1 rfl,
   (c6_initialize_models_config 200 ⟨false, none⟩).2.1 (by omega) (by omega),
   ((c6_initialize_models_config 94 ⟨false, none⟩).2.2.1 (by omega)).1,
   ((c6_initialize_models_config 95 ⟨false, none⟩).2.2.2 2048 rfl).1
     (Or.inl rfl),
   ((c6_initialize_models_config 95 ⟨true, some 6144⟩).2.2.2 2048 rfl).1
     (Or.inr (by decide)),
   ((c6_initialize_models_config 95 ⟨true, some 2048⟩).2.2.2 2048 rfl).2
     rfl rfl⟩

/-! ### Claim C5 -/

/-- C5: `POST /generate` rejects with 400 — leaving the store untouched, so
no directory or record is created — when both style references are supplied
or neither is; `audio_length = 94` is rejected with 400, while 95 and 200
pass validation and lead to a created directory and a `queued` response.
The checks run before the task id or store is used, so the error cases hold
for every `audio_length` and every store. -/
theorem c5_generate_validation (newId now prompt : Str) (hp : prompt ≠ [])
    (st : Store) (aLen : Int) (ch : Bool) (bn : Int) :
    (generate_music newId now ⟨true, some prompt, aLen, ch, bn⟩ st =
      (Except.error (400, strOf "Only one of ref_audio or ref_prompt should be provided"), st)) ∧
    (generate_music newId now ⟨false, none, aLen, ch, bn⟩ st =
      (Except.error (400, strOf "Either ref_audio or ref_prompt must be provided"), st)) ∧
    (generate_music newId now ⟨true, none, 94, ch, bn⟩ st =
      (Except.error (400, strOf "Audio length must be 95 or between 96-285 seconds"), st)) ∧
    (generate_music newId now ⟨false, some prompt, 94, ch, bn⟩ st =
      (Except.error (400, strOf "Audio length must be 95 or between 96-285 seconds"), st)) ∧
    (generate_music newId now ⟨true, none, 95, ch, bn⟩ st =
      (Except.ok ⟨newId, strOf "queued", strOf "Music generation task queued successfully"⟩,
        create_task_directory st newId now)) ∧
    (generate_music newId now ⟨true, none, 200, ch, bn⟩ st =
      (Except.ok ⟨newId, strOf "queued", strOf "Music generation task queued successfully"⟩,
        create_task_directory st newId now)) ∧
    (generate_music newId now ⟨false, some prompt, 95, ch, bn⟩ st =
      (Except.ok ⟨newId, strOf "queued", strOf "Music generation task queued successfully"⟩,
        create_task_directory st newId now)) ∧
    (generate_music newId now ⟨false, some prompt, 200, ch, bn⟩ st =
      (Except.ok ⟨newId, strOf "queued", strOf "Music generation task queued successfully"⟩,
        create_task_directory st newId now)) := by
  have htrue : pyTruthyStrOpt (some prompt) = true := by
    cases prompt with
    | nil => exact absurd rfl hp
    | cons a t => rfl
  have hnone : pyTruthyStrOpt none = false := rfl
  refine ⟨?_, ?_, ?_, ?_, ?_, ?_, ?_, ?_⟩ <;>
    simp [generate_music, htrue, hnone]

theorem c5_generate_validation_witness :
    generate_music (strOf "g1") (strOf "NOW") ⟨true, some (strOf "pop"), 120, true, 1⟩ [] =
      (Except.error (400, strOf "Only one of ref_audio or ref_prompt should be provided"), []) :=
  (c5_generate_validation (strOf "g1") (strOf "NOW") (strOf "pop")
    (by decide) [] 120 true 1).1

/-! ### Claim C4 (corrected) -/

/-- C4 counterexample: the claim says `POST /edit` rejects an out-of-range
`audio_length` (e.g. 94) with a client error before allocating a task id or
creating any directory.  In the code, an edit request with `audio_length =
94` and a valid style reference is accepted: the response is `queued` and
the task directory and record are created. -/
theorem c4_edit_accepts_out_of_range_counterexample :
    edit_music (strOf "e1") (strOf "2024-01-01T00:00:00")
      ⟨true, none, strOf "[[-1,25]]", 94, true, 1⟩ [] =
      (Except.ok ⟨strOf "e1", strOf "queued", strOf "Music editing task queued successfully"⟩,
        [⟨strOf "e1", true,
          some (initialMetadata (strOf "e1") (strOf "2024-01-01T00:00:00"))⟩]) := by
  rfl

/-- C4 amended: `POST /edit` applies the same style-reference
exclusivity/presence validation as `POST /generate` (plus the required
`ref_song` and `edit_segments` fields of its signature), but it does not
validate the audio-length range: whenever exactly one style reference is
supplied, the request is accepted — for every `audio_length`, including 94
and 286 — and the task directory is created and the task queued; the
out-of-range failure only surfaces later, when the background task's
adapter raises. -/
theorem c4_edit_validation_amended (newId now : Str) (r : EditRequest)
    (st : Store) :
    (r.hasRefAudio = false → pyTruthyStrOpt r.refPrompt = false →
      edit_music newId now r st =
        (Except.error (400, strOf "Either ref_audio or ref_prompt must be provided"), st)) ∧
    (r.hasRefAudio = true → pyTruthyStrOpt r.refPrompt = true →
      edit_music newId now r st =
        (Except.error (400, strOf "Only one of ref_audio or ref_prompt should be provided"), st)) ∧
    ((r.hasRefAudio = true ∧ pyTruthyStrOpt r.refPrompt = false) ∨
        (r.hasRefAudio = false ∧ pyTruthyStrOpt r.refPrompt = true) →
      edit_music newId now r st =
        (Except.ok ⟨newId, strOf "queued", strOf "Music editing task queued successfully"⟩,
          create_task_directory st newId now)) := by
  refine ⟨?_, ?_, ?_⟩
  · intro h1 h2
    simp [edit_music, h1, h2]
  · intro h1 h2
    simp [edit_music, h1, h2]
  · rintro (⟨h1, h2⟩ | ⟨h1, h2⟩) <;> simp [edit_music, h1, h2]

theorem c4_edit_validation_amended_witness :
    edit_music (strOf "e2") (strOf "NOW")
      ⟨true, none, strOf "[[-1,25]]", 286, true, 1⟩ [] =
      (Except.ok ⟨strOf "e2", strOf "queued", strOf "Music editing task queued successfully"⟩,
        create_task_directory [] (strOf "e2") (strOf "NOW")) :=
  (c4_edit_validation_amended (strOf "e2") (strOf "NOW")
    ⟨true, none, strOf "[[-1,25]]", 286, true, 1⟩ []).2.2
    (Or.inl ⟨rfl, rfl⟩)

/-! ### Claim C7 (corrected) -/

/-- C7 is false as stated: it claims the parse is corrupted for *every*
value containing a colon or a newline.  A value containing a colon survives
the write-then-read round trip unchanged, because the reader splits each
line only at its first colon — the one terminating the key. -/
theorem c7_colon_value_roundtrips_counterexample :
    parseMetadata (serializeMetadata
      [(strOf "output_path", strOf "C:/tasks/t1/output/output.wav")]) =
      [(strOf "output_path", strOf "C:/tasks/t1/output/output.wav")] := by
  decide

/-- C7 amended: values are written with no escaping; write-then-read is the
identity on every record whose keys are colon-free and whose values are
newline-free and whitespace-trimmed (colons inside values are harmless,
since the parser splits each line at its first colon only), and it fails for
every record some value of which contains a newline. -/
theorem c7_encoding_roundtrip_amended :
    (∀ m : Dict, wfDict m → parseMetadata (serializeMetadata m) = m) ∧
    (∀ (m : Dict) (k v : Str), (k, v) ∈ m → hasChar '\n' v = true →
      parseMetadata (serializeMetadata m) ≠ m) := by
  constructor
  · exact fun m h => parse_serialize h
  · intro m k v hm hv heq
    have hwf := ((wf_parseMetadata (serializeMetadata m)).1 (k, v)
      (by rw [heq]; exact hm)).2.2
    rw [hwf] at hv
    exact absurd hv (by simp)

theorem c7_encoding_roundtrip_amended_witness :
    parseMetadata (serializeMetadata [(strOf "status", strOf "completed")]) =
      [(strOf "status", strOf "completed")] ∧
    parseMetadata (serializeMetadata [(strOf "error", strOf "bad\nvalue: x")]) ≠
      [(strOf "error", strOf "bad\nvalue: x")] :=
  ⟨c7_encoding_roundtrip_amended.1 _ (by decide),
   c7_encoding_roundtrip_amended.2 _ (strOf "error") (strOf "bad\nvalue: x")
     (by decide) (by decide)⟩

/-! ### Claim C10 -/

/-- C10: calling `create_task_directory` for a task id that already has a
directory and metadata record does not fail: it overwrites the record with a
fresh initial one — `status = created`, the new `created_at`, the task id —
and every previously recorded field (progress, output_path, error, ...) is
silently discarded. -/
theorem c10_create_overwrites_existing (st : Store) (id now prior : Str)
    (hprior : storeMeta st id = some prior)
    (hid : cleanVal id) (hnow : cleanVal now) :
    storeMeta (create_task_directory st id now) id =
      some (initialMetadata id now) ∧
    ∃ m, get_task_metadata (create_task_directory st id now) id = some m ∧
      dictGet m (strOf "status") = some (strOf "created") ∧
      dictGet m (strOf "created_at") = some now ∧
      dictGet m (strOf "task_id") = some id ∧
      ∀ k, k ≠ strOf "task_id" → k ≠ strOf "created_at" → k ≠ strOf "status" →
        dictGet m k = none := by
  have hset : storeMeta (create_task_directory st id now) id =
      some (initialMetadata id now) := storeMeta_set_self st id _
  refine ⟨hset, ?_⟩
  have hwf : wfDict [(strOf "task_id", id), (strOf "created_at", now),
      (strOf "status", strOf "created")] := by
    constructor
    · intro kv hkv
      have hcase : kv = (strOf "task_id", id) ∨ kv = (strOf "created_at", now) ∨
          kv = (strOf "status", strOf "created") := by simpa using hkv
      rcases hcase with h | h | h <;> subst h
      · exact ⟨show wfKey (strOf "task_id") by decide, hid⟩
      · exact ⟨show wfKey (strOf "created_at") by decide, hnow⟩
      · exact ⟨show wfKey (strOf "status") by decide,
          show cleanVal (strOf "created") by decide⟩
    · simp only [dictKeys, List.map_cons, List.map_nil]
      decide
  have hparse : parseMetadata (initialMetadata id now) =
      [(strOf "task_id", id), (strOf "created_at", now),
       (strOf "status", strOf "created")] := parse_serialize hwf
  refine ⟨[(strOf "task_id", id), (strOf "created_at", now),
    (strOf "status", strOf "created")], ?_, ?_, ?_, ?_, ?_⟩
  · unfold get_task_metadata
    rw [hset]
    simp [hparse]
  · rw [dictGet_cons, if_neg (by decide), dictGet_cons, if_neg (by decide),
      dictGet_cons, if_pos rfl]
  · rw [dictGet_cons, if_neg (by decide), dictGet_cons, if_pos rfl]
  · rw [dictGet_cons, if_pos rfl]
  · intro k hk1 hk2 hk3
    rw [dictGet_cons, if_neg (fun he => hk1 he.symm),
      dictGet_cons, if_neg (fun he => hk2 he.symm),
      dictGet_cons, if_neg (fun he => hk3 he.symm)]
    rfl

theorem c10_create_overwrites_existing_witness :
    storeMeta [⟨strOf "t1", true, some (strOf "status: failed\nprogress: 10\n")⟩]
      (strOf "t1") = some (strOf "status: failed\nprogress: 10\n") ∧
    cleanVal (strOf "t1") ∧ cleanVal (strOf "2024-06-01T10:00:00") ∧
    (storeMeta (create_task_directory
        [⟨strOf "t1", true, some (strOf "status: failed\nprogress: 10\n")⟩]
        (strOf "t1") (strOf "2024-06-01T10:00:00")) (strOf "t1") =
      some (initialMetadata (strOf "t1") (strOf "2024-06-01T10:00:00")) ∧
    ∃ m, get_task_metadata (create_task_directory
        [⟨strOf "t1", true, some (strOf "status: failed\nprogress: 10\n")⟩]
        (strOf "t1") (strOf "2024-06-01T10:00:00")) (strOf "t1") = some m ∧
      dictGet m (strOf "status") = some (strOf "created") ∧
      dictGet m (strOf "created_at") = some (strOf "2024-06-01T10:00:00") ∧
      dictGet m (strOf "task_id") = some (strOf "t1") ∧
      ∀ k, k ≠ strOf "task_id" → k ≠ strOf "created_at" → k ≠ strOf "status" →
        dictGet m k = none) :=
  ⟨by decide, by decide, by decide,
   c10_create_overwrites_existing
     [⟨strOf "t1", true, some (strOf "status: failed\nprogress: 10\n")⟩]
     (strOf "t1") (strOf "2024-06-01T10:00:00")
     (strOf "status: failed\nprogress: 10\n")
     (by decide) (by decide) (by decide)⟩

/-! ### Claim C2 -/

/-- C2: for a task id with an existing metadata record, updates merge rather
than replace.  After `update(id, "processing", progress=0)` followed by
`update(id, "processing", progress=10)` a read returns `progress = "10"`
(string-coerced), `status` and `updated_at` are overwritten, and every field
of the prior record not named in the updates (e.g. `created_at`, `task_id`)
is preserved unchanged.  The timestamps must be clean (trimmed and
newline-free), as every real ISO timestamp is. -/
theorem c2_update_merges (st : Store) (id content now1 now2 : Str)
    (hmeta : storeMeta st id = some content)
    (h1 : cleanVal now1) (h2 : cleanVal now2) :
    ∃ m,
      get_task_metadata
        (update_task_status
          (update_task_status st id (strOf "processing") now1
            [(strOf "progress", PyValue.int 0)])
          id (strOf "processing") now2
          [(strOf "progress", PyValue.int 10)]) id = some m ∧
      dictGet m (strOf "progress") = some (strOf "10") ∧
      dictGet m (strOf "status") = some (strOf "processing") ∧
      dictGet m (strOf "updated_at") = some now2 ∧
      ∀ k, k ≠ strOf "status" → k ≠ strOf "updated_at" → k ≠ strOf "progress" →
        dictGet m k = dictGet (parseMetadata content) k := by
  have hproc : cleanVal (strOf "processing") := by decide
  have hkw0 : ∀ kv ∈ [(strOf "progress", PyValue.int 0)],
      wfKey kv.1 ∧ cleanVal (pyStr kv.2) := by decide
  have hkw10 : ∀ kv ∈ [(strOf "progress", PyValue.int 10)],
      wfKey kv.1 ∧ cleanVal (pyStr kv.2) := by decide
  have hm1 : storeMeta
      (update_task_status st id (strOf "processing") now1
        [(strOf "progress", PyValue.int 0)]) id =
      some (updateContent content (strOf "processing") now1
        [(strOf "progress", PyValue.int 0)]) :=
    storeMeta_update_self hmeta _ _ _
  have hm2 : storeMeta
      (update_task_status
        (update_task_status st id (strOf "processing") now1
          [(strOf "progress", PyValue.int 0)])
        id (strOf "processing") now2
        [(strOf "progress", PyValue.int 10)]) id =
      some (updateContent
        (updateContent content (strOf "processing") now1
          [(strOf "progress", PyValue.int 0)])
        (strOf "processing") now2
        [(strOf "progress", PyValue.int 10)]) :=
    storeMeta_update_self hm1 _ _ _
  have hp1 : parseMetadata (updateContent content (strOf "processing") now1
      [(strOf "progress", PyValue.int 0)]) =
      updatedDict (parseMetadata content) (strOf "processing") now1
        [(strOf "progress", PyValue.int 0)] :=
    parse_updateContent hproc h1 hkw0
  have hp2 : parseMetadata (updateContent
      (updateContent content (strOf "processing") now1
        [(strOf "progress", PyValue.int 0)])
      (strOf "processing") now2 [(strOf "progress", PyValue.int 10)]) =
      updatedDict (parseMetadata (updateContent content (strOf "processing")
        now1 [(strOf "progress", PyValue.int 0)]))
        (strOf "processing") now2 [(strOf "progress", PyValue.int 10)] :=
    parse_updateContent hproc h2 hkw10
  have hud : ∀ (md : Dict) (nv : Str) (n : Int),
      updatedDict md (strOf "processing") nv [(strOf "progress", PyValue.int n)] =
      dictInsert (dictInsert (dictInsert md (strOf "status")
        (strOf "processing")) (strOf "updated_at") nv)
        (strOf "progress") (pyStr (PyValue.int n)) :=
    fun md nv n => rfl
  refine ⟨parseMetadata (updateContent
      (updateContent content (strOf "processing") now1
        [(strOf "progress", PyValue.int 0)])
      (strOf "processing") now2 [(strOf "progress", PyValue.int 10)]),
    ?_, ?_, ?_, ?_, ?_⟩
  · unfold get_task_metadata
    rw [hm2]
    rfl
  · rw [hp2, hud, dictGet_insert_self]
    decide
  · rw [hp2, hud, dictGet_insert_ne _ _ _ _ (by decide),
      dictGet_insert_ne _ _ _ _ (by decide), dictGet_insert_self]
  · rw [hp2, hud, dictGet_insert_ne _ _ _ _ (by decide), dictGet_insert_self]
  · intro k hk1 hk2 hk3
    rw [hp2, hud, dictGet_insert_ne _ _ _ _ hk3, dictGet_insert_ne _ _ _ _ hk2,
      dictGet_insert_ne _ _ _ _ hk1, hp1, hud,
      dictGet_insert_ne _ _ _ _ hk3, dictGet_insert_ne _ _ _ _ hk2,
      dictGet_insert_ne _ _ _ _ hk1]

theorem c2_update_merges_witness :
    storeMeta
      [⟨strOf "t1", true,
        some (initialMetadata (strOf "t1") (strOf "2024-01-01T00:00:00"))⟩]
      (strOf "t1") =
      some (initialMetadata (strOf "t1") (strOf "2024-01-01T00:00:00")) ∧
    cleanVal (strOf "2024-01-01T00:00:05") ∧
    cleanVal (strOf "2024-01-01T00:00:09") ∧
    (∃ m,
      get_task_metadata
        (update_task_status
          (update_task_status
            [⟨strOf "t1", true,
              some (initialMetadata (strOf "t1") (strOf "2024-01-01T00:00:00"))⟩]
            (strOf "t1") (strOf "processing") (strOf "2024-01-01T00:00:05")
            [(strOf "progress", PyValue.int 0)])
          (strOf "t1") (strOf "processing") (strOf "2024-01-01T00:00:09")
          [(strOf "progress", PyValue.int 10)]) (strOf "t1") = some m ∧
      dictGet m (strOf "progress") = some (strOf "10") ∧
      dictGet m (strOf "status") = some (strOf "processing") ∧
      dictGet m (strOf "updated_at") = some (strOf "2024-01-01T00:00:09") ∧
      ∀ k, k ≠ strOf "status" → k ≠ strOf "updated_at" → k ≠ strOf "progress" →
        dictGet m k = dictGet
          (parseMetadata (initialMetadata (strOf "t1")
            (strOf "2024-01-01T00:00:00"))) k) :=
  ⟨by decide, by decide, by decide,
   c2_update_merges
     [⟨strOf "t1", true,
       some (initialMetadata (strOf "t1") (strOf "2024-01-01T00:00:00"))⟩]
     (strOf "t1")
     (initialMetadata (strOf "t1") (strOf "2024-01-01T00:00:00"))
     (strOf "2024-01-01T00:00:05") (strOf "2024-01-01T00:00:09")
     (by decide) (by decide) (by decide)⟩

/-! ### Claim C3 (corrected) -/

/-- Common shape of both task runners' failure paths: two `processing`
updates followed by the terminal `failed` update whose `error` kwarg is a
fixed prefix concatenated with the exception message. -/
theorem failed_update_chain (st : Store) (id content e pre : Str)
    (hmeta : storeMeta st id = some content)
    (hout : dictGet (parseMetadata content) (strOf "output_path") = none)
    (he : cleanVal e) (hene : e ≠ [])
    (hpre : noLead pre = true) (hprene : pre ≠ [])
    (hpreNL : hasChar '\n' pre = false)
    (t0 t10 tEnd tDone : Str) (h0 : cleanVal t0) (h10 : cleanVal t10)
    (hEnd : cleanVal tEnd) (hDone : cleanVal tDone) :
    ∃ m, get_task_metadata
        (update_task_status
          (update_task_status
            (update_task_status st id (strOf "processing") t0
              [(strOf "progress", PyValue.int 0)])
            id (strOf "processing") t10
            [(strOf "progress", PyValue.int 10)])
          id (strOf "failed") tEnd
          [(strOf "error", PyValue.str (pre ++ e)),
           (strOf "completed_at", PyValue.str tDone)]) id = some m ∧
      dictGet m (strOf "status") = some (strOf "failed") ∧
      dictGet m (strOf "error") = some (pre ++ e) ∧
      dictGet m (strOf "completed_at") = some tDone ∧
      dictGet m (strOf "output_path") = none := by
  have hproc : cleanVal (strOf "processing") := by decide
  have hfail : cleanVal (strOf "failed") := by decide
  have hkw0 : ∀ kv ∈ [(strOf "progress", PyValue.int 0)],
      wfKey kv.1 ∧ cleanVal (pyStr kv.2) := by decide
  have hkw10 : ∀ kv ∈ [(strOf "progress", PyValue.int 10)],
      wfKey kv.1 ∧ cleanVal (pyStr kv.2) := by decide
  have hev : cleanVal (pre ++ e) := by
    refine ⟨strip_append_clean hpre hprene he.1 hene, ?_⟩
    rw [hasChar_append, hpreNL, he.2]
    rfl
  have hkwF : ∀ kv ∈ [(strOf "error", PyValue.str (pre ++ e)),
      (strOf "completed_at", PyValue.str tDone)],
      wfKey kv.1 ∧ cleanVal (pyStr kv.2) := by
    intro kv hkv
    have hcase : kv = (strOf "error", PyValue.str (pre ++ e)) ∨
        kv = (strOf "completed_at", PyValue.str tDone) := by simpa using hkv
    rcases hcase with h | h <;> subst h
    · exact ⟨show wfKey (strOf "error") by decide, hev⟩
    · exact ⟨show wfKey (strOf "completed_at") by decide, hDone⟩
  have hm1 : storeMeta (update_task_status st id (strOf "processing") t0
      [(strOf "progress", PyValue.int 0)]) id =
      some (updateContent content (strOf "processing") t0
        [(strOf "progress", PyValue.int 0)]) :=
    storeMeta_update_self hmeta _ _ _
  have hm2 : storeMeta (update_task_status
      (update_task_status st id (strOf "processing") t0
        [(strOf "progress", PyValue.int 0)])
      id (strOf "processing") t10 [(strOf "progress", PyValue.int 10)]) id =
      some (updateContent
        (updateContent content (strOf "processing") t0
          [(strOf "progress", PyValue.int 0)])
        (strOf "processing") t10 [(strOf "progress", PyValue.int 10)]) :=
    storeMeta_update_self hm1 _ _ _
  have hm3 : storeMeta (update_task_status
      (update_task_status
        (update_task_status st id (strOf "processing") t0
          [(strOf "progress", PyValue.int 0)])
        id (strOf "processing") t10 [(strOf "progress", PyValue.int 10)])
      id (strOf "failed") tEnd
      [(strOf "error", PyValue.str (pre ++ e)),
       (strOf "completed_at", PyValue.str tDone)]) id =
      some (updateContent
        (updateContent
          (updateContent content (strOf "processing") t0
            [(strOf "progress", PyValue.int 0)])
          (strOf "processing") t10 [(strOf "progress", PyValue.int 10)])
        (strOf "failed") tEnd
        [(strOf "error", PyValue.str (pre ++ e)),
         (strOf "completed_at", PyValue.str tDone)]) :=
    storeMeta_update_self hm2 _ _ _
  have hp1 : parseMetadata (updateContent content (strOf "processing") t0
      [(strOf "progress", PyValue.int 0)]) =
      updatedDict (parseMetadata content) (strOf "processing") t0
        [(strOf "progress", PyValue.int 0)] :=
    parse_updateContent hproc h0 hkw0
  have hp2 : parseMetadata (updateContent
      (updateContent content (strOf "processing") t0
        [(strOf "progress", PyValue.int 0)])
      (strOf "processing") t10 [(strOf "progress", PyValue.int 10)]) =
      updatedDict (parseMetadata
        (updateContent content (strOf "processing") t0
          [(strOf "progress", PyValue.int 0)]))
        (strOf "processing") t10 [(strOf "progress", PyValue.int 10)] :=
    parse_updateContent hproc h10 hkw10
  have hp3 : parseMetadata (updateContent
      (updateContent
        (updateContent content (strOf "processing") t0
          [(strOf "progress", PyValue.int 0)])
        (strOf "processing") t10 [(strOf "progress", PyValue.int 10)])
      (strOf "failed") tEnd
      [(strOf "error", PyValue.str (pre ++ e)),
       (strOf "completed_at", PyValue.str tDone)]) =
      updatedDict (parseMetadata (updateContent
        (updateContent content (strOf "processing") t0
          [(strOf "progress", PyValue.int 0)])
        (strOf "processing") t10 [(strOf "progress", PyValue.int 10)]))
        (strOf "failed") tEnd
        [(strOf "error", PyValue.str (pre ++ e)),
         (strOf "completed_at", PyValue.str tDone)] :=
    parse_updateContent hfail hEnd hkwF
  have hud : ∀ (md : Dict) (nv : Str) (n : Int),
      updatedDict md (strOf "processing") nv [(strOf "progress", PyValue.int n)] =
      dictInsert (dictInsert (dictInsert md (strOf "status")
        (strOf "processing")) (strOf "updated_at") nv)
        (strOf "progress") (pyStr (PyValue.int n)) :=
    fun md nv n => rfl
  have hudF : ∀ md : Dict,
      updatedDict md (strOf "failed") tEnd
        [(strOf "error", PyValue.str (pre ++ e)),
         (strOf "completed_at", PyValue.str tDone)] =
      dictInsert (dictInsert (dictInsert (dictInsert md (strOf "status")
        (strOf "failed")) (strOf "updated_at") tEnd)
        (strOf "error") (pre ++ e)) (strOf "completed_at") tDone :=
    fun md => rfl
  refine ⟨parseMetadata (updateContent
      (updateContent
        (updateContent content (strOf "processing") t0
          [(strOf "progress", PyValue.int 0)])
        (strOf "processing") t10 [(strOf "progress", PyValue.int 10)])
      (strOf "failed") tEnd
      [(strOf "error", PyValue.str (pre ++ e)),
       (strOf "completed_at", PyValue.str tDone)]), ?_, ?_, ?_, ?_, ?_⟩
  · unfold get_task_metadata
    rw [hm3]
    rfl
  · rw [hp3, hudF, dictGet_insert_ne _ _ _ _ (by decide),
      dictGet_insert_ne _ _ _ _ (by decide),
      dictGet_insert_ne _ _ _ _ (by decide), dictGet_insert_self]
  · rw [hp3, hudF, dictGet_insert_ne _ _ _ _ (by decide), dictGet_insert_self]
  · rw [hp3, hudF, dictGet_insert_self]
  · rw [hp3, hudF, dictGet_insert_ne _ _ _ _ (by decide),
      dictGet_insert_ne _ _ _ _ (by decide),
      dictGet_insert_ne _ _ _ _ (by decide),
      dictGet_insert_ne _ _ _ _ (by decide),
      hp2, hud, dictGet_insert_ne _ _ _ _ (by decide),
      dictGet_insert_ne _ _ _ _ (by decide),
      dictGet_insert_ne _ _ _ _ (by decide),
      hp1, hud, dictGet_insert_ne _ _ _ _ (by decide),
      dictGet_insert_ne _ _ _ _ (by decide),
      dictGet_insert_ne _ _ _ _ (by decide)]
    exact hout

/-- C3 counterexample: the claim says the `error` field is set to the
exception's message.  With exception message `boom`, the stored `error`
field is `Error in generation task: boom` — the message with a fixed prefix,
not the message itself. -/
theorem c3_error_prefix_counterexample :
    (get_task_metadata
      (generate_music_task (Except.error (strOf "boom"))
        (strOf "T1") (strOf "T2") (strOf "T3") (strOf "T4")
        [⟨strOf "t1", true,
          some (initialMetadata (strOf "t1") (strOf "2024-01-01T00:00:00"))⟩]
        (strOf "t1"))
      (strOf "t1")).map (fun m => dictGet m (strOf "error")) =
      some (some (strOf "Error in generation task: boom")) ∧
    strOf "Error in generation task: boom" ≠ strOf "boom" := by
  constructor
  · decide
  · decide

/-- C3 amended: when the background run's adapter raises, the task runner
transitions the stored record to `status = failed`, sets `completed_at` to
the failure time and leaves `output_path` absent, but the `error` field is
set to a fixed task-kind prefix (`Error in generation task: ` resp.
`Error in edit task: `) followed by the exception's message — not to the
bare message.  Stated for every store holding a record for the task, every
nonempty clean exception message and all clean timestamps. -/
theorem c3_task_failure_record (st : Store) (id content e : Str)
    (hmeta : storeMeta st id = some content)
    (hout : dictGet (parseMetadata content) (strOf "output_path") = none)
    (he : cleanVal e) (hene : e ≠ [])
    (t0 t10 tEnd tDone : Str) (h0 : cleanVal t0) (h10 : cleanVal t10)
    (hEnd : cleanVal tEnd) (hDone : cleanVal tDone) :
    (∃ m, get_task_metadata
        (generate_music_task (Except.error e) t0 t10 tEnd tDone st id) id =
          some m ∧
      dictGet m (strOf "status") = some (strOf "failed") ∧
      dictGet m (strOf "error") =
        some (strOf "Error in generation task: " ++ e) ∧
      dictGet m (strOf "completed_at") = some tDone ∧
      dictGet m (strOf "output_path") = none) ∧
    (∃ m, get_task_metadata
        (edit_music_task (Except.error e) t0 t10 tEnd tDone st id) id =
          some m ∧
      dictGet m (strOf "status") = some (strOf "failed") ∧
      dictGet m (strOf "error") =
        some (strOf "Error in edit task: " ++ e) ∧
      dictGet m (strOf "completed_at") = some tDone ∧
      dictGet m (strOf "output_path") = none) := by
  constructor
  · exact failed_update_chain st id content e
      (strOf "Error in generation task: ") hmeta hout he hene
      (by decide) (by decide) (by decide) t0 t10 tEnd tDone h0 h10 hEnd hDone
  · exact failed_update_chain st id content e
      (strOf "Error in edit task: ") hmeta hout he hene
      (by decide) (by decide) (by decide) t0 t10 tEnd tDone h0 h10 hEnd hDone

theorem c3_task_failure_record_witness :
    ∃ m, get_task_metadata
        (generate_music_task (Except.error (strOf "CUDA out of memory"))
          (strOf "T1") (strOf "T2") (strOf "T3") (strOf "T4")
          [⟨strOf "t1", true,
            some (initialMetadata (strOf "t1") (strOf "2024-01-01T00:00:00"))⟩]
          (strOf "t1"))
        (strOf "t1") = some m ∧
      dictGet m (strOf "status") = some (strOf "failed") ∧
      dictGet m (strOf "error") =
        some (strOf "Error in generation task: " ++ strOf "CUDA out of memory") ∧
      dictGet m (strOf "completed_at") = some (strOf "T4") ∧
      dictGet m (strOf "output_path") = none :=
  (c3_task_failure_record
    [⟨strOf "t1", true,
      some (initialMetadata (strOf "t1") (strOf "2024-01-01T00:00:00"))⟩]
    (strOf "t1")
    (initialMetadata (strOf "t1") (strOf "2024-01-01T00:00:00"))
    (strOf "CUDA out of memory")
    (by decide) (by decide) (by decide) (by decide)
    (strOf "T1") (strOf "T2") (strOf "T3") (strOf "T4")
    (by decide) (by decide) (by decide) (by decide)).1

/-! ### Claim C8 -/

/-- C8: for a task with a stored record (whose `progress` field, if present,
is numeric — true of every record this system writes), `GET /download`
returns a 400 state error whose detail carries the current status whenever
the stored status is anything other than `completed`; when the status is
`completed` but the recorded `output_path` is absent (or empty) or the file
does not exist, it returns 404; and the file response is produced exactly
when the status is `completed` and the recorded output file exists. -/
theorem c8_download_gating (st : Store) (id content : Str) (fx : Str → Bool)
    (hmeta : storeMeta st id = some content)
    (hprog : progressParses (parseMetadata content) = true) :
    (((dictGet (parseMetadata content) (strOf "status")).getD (strOf "unknown") ≠
        strOf "completed" →
      download_result st id fx = DownloadOutcome.httpError 400
        (strOf "Task is not completed yet. Current status: " ++
          (dictGet (parseMetadata content) (strOf "status")).getD
            (strOf "unknown"))) ∧
    ((dictGet (parseMetadata content) (strOf "status")).getD (strOf "unknown") =
        strOf "completed" →
      pyTruthyStrOpt (dictGet (parseMetadata content) (strOf "output_path")) =
        false →
      download_result st id fx =
        DownloadOutcome.httpError 404 (strOf "Output file not found")) ∧
    (∀ p, (dictGet (parseMetadata content) (strOf "status")).getD
        (strOf "unknown") = strOf "completed" →
      dictGet (parseMetadata content) (strOf "output_path") = some p →
      p ≠ [] → fx p = false →
      download_result st id fx =
        DownloadOutcome.httpError 404 (strOf "Output file not found")) ∧
    (∀ p, (dictGet (parseMetadata content) (strOf "status")).getD
        (strOf "unknown") = strOf "completed" →
      dictGet (parseMetadata content) (strOf "output_path") = some p →
      p ≠ [] → fx p = true →
      download_result st id fx =
        DownloadOutcome.fileResp p (id ++ strOf ".wav"))) := by
  obtain ⟨pr, hstat⟩ : ∃ pr, get_task_status st id = Except.ok (some
      { task_id := id
        status := (dictGet (parseMetadata content) (strOf "status")).getD
          (strOf "unknown")
        progress := pr
        message := dictGet (parseMetadata content) (strOf "message")
        output_path := dictGet (parseMetadata content) (strOf "output_path")
        created_at := dictGet (parseMetadata content) (strOf "created_at")
        completed_at := dictGet (parseMetadata content) (strOf "completed_at")
        error := dictGet (parseMetadata content) (strOf "error") }) := by
    rw [get_task_status_of_meta hmeta]
    rcases hpf : progressField (parseMetadata content) with e | prog
    · exfalso
      unfold progressField at hpf
      unfold progressParses at hprog
      rcases hg : dictGet (parseMetadata content) (strOf "progress") with _ | p
      · rw [hg] at hpf
        simp at hpf
      · rw [hg] at hpf hprog
        have hprog' : (pyInt p).isSome = true := hprog
        have hpf' : (match pyInt p with
            | none => (Except.error () : Except Unit (Option Int))
            | some n => Except.ok (some n)) = Except.error e := hpf
        rcases hpi : pyInt p with _ | n
        · rw [hpi] at hprog'
          exact absurd hprog' (by simp)
        · rw [hpi] at hpf'
          simp at hpf'
    · exact ⟨prog, rfl⟩
  refine ⟨?_, ?_, ?_, ?_⟩
  · intro hne
    unfold download_result
    rw [hstat]
    exact if_pos hne
  · intro hcomp hfalsy
    unfold download_result
    rw [hstat]
    have h1 : ¬ ((dictGet (parseMetadata content) (strOf "status")).getD
        (strOf "unknown") ≠ strOf "completed") := fun hc => hc hcomp
    have h2 : (!pyTruthyStrOpt
        (dictGet (parseMetadata content) (strOf "output_path"))) = true := by
      rw [hfalsy]
      rfl
    exact (if_neg h1).trans (if_pos h2)
  · intro p hcomp hp hpne hfx
    unfold download_result
    rw [hstat]
    have h1 : ¬ ((dictGet (parseMetadata content) (strOf "status")).getD
        (strOf "unknown") ≠ strOf "completed") := fun hc => hc hcomp
    have h2 : ¬ ((!pyTruthyStrOpt
        (dictGet (parseMetadata content) (strOf "output_path"))) = true) := by
      rw [hp]
      cases p with
      | nil => exact absurd rfl hpne
      | cons a t => simp [pyTruthyStrOpt]
    have h3 : (!fx ((dictGet (parseMetadata content)
        (strOf "output_path")).getD [])) = true := by
      rw [hp]
      show (!fx p) = true
      rw [hfx]
      rfl
    exact (if_neg h1).trans ((if_neg h2).trans (if_pos h3))
  · intro p hcomp hp hpne hfx
    unfold download_result
    rw [hstat]
    have h1 : ¬ ((dictGet (parseMetadata content) (strOf "status")).getD
        (strOf "unknown") ≠ strOf "completed") := fun hc => hc hcomp
    have h2 : ¬ ((!pyTruthyStrOpt
        (dictGet (parseMetadata content) (strOf "output_path"))) = true) := by
      rw [hp]
      cases p with
      | nil => exact absurd rfl hpne
      | cons a t => simp [pyTruthyStrOpt]
    have h3 : ¬ ((!fx ((dictGet (parseMetadata content)
        (strOf "output_path")).getD [])) = true) := by
      rw [hp]
      show ¬ ((!fx p) = true)
      rw [hfx]
      simp
    have h4 : (dictGet (parseMetadata content)
        (strOf "output_path")).getD [] = p := by rw [hp]; rfl
    exact (if_neg h1).trans ((if_neg h2).trans ((if_neg h3).trans
      (by rw [h4])))

theorem c8_download_gating_witness :
    download_result
      [⟨strOf "t1", true,
        some (strOf "task_id: t1\nstatus: completed\nprogress: 100\noutput_path: /data/t1/output/output.wav\n")⟩]
      (strOf "t1") (fun _ => true) =
      DownloadOutcome.fileResp (strOf "/data/t1/output/output.wav")
        (strOf "t1" ++ strOf ".wav") :=
  (c8_download_gating
    [⟨strOf "t1", true,
      some (strOf "task_id: t1\nstatus: completed\nprogress: 100\noutput_path: /data/t1/output/output.wav\n")⟩]
    (strOf "t1")
    (strOf "task_id: t1\nstatus: completed\nprogress: 100\noutput_path: /data/t1/output/output.wav\n")
    (fun _ => true) (by decide) (by decide)).2.2.2
    (strOf "/data/t1/output/output.wav") (by decide) (by decide)
    (by decide) rfl

end DiffRhythmApi
